import Mathlib

/-!
Verification development for `lib/LiCSAlert_functions.py`.

The Python functions operate on numpy arrays of floats; here they are
shallowly embedded over `ℚ`.  Matrices of cumulative time courses are
represented as lists of columns (one column per channel/source, exactly
the columns the Python loops slice out of the rank-2 array); raster
interferogram matrices are Mathlib `Matrix` values over `Fin`-indexed
types.

Two numpy operations take real square roots (`np.std` in `tcs_baseline`,
and the root-sum-of-squares residual in `bss_components_inversion`), and
a square root of a rational is in general irrational, so the embedding
carries the radicand instead:

* a trend state stores `sigmaSq` where the code stores
  `sigma = sqrt sigmaSq`, and stores `distancesRaw` where the code stores
  `distancesRaw[t] / sqrt sigmaSq` (both uses of sigma in the source
  divide one of the stored raw distances by it, so the pair
  `(distancesRaw, sigmaSq)` determines the code's `(distances, sigma)`
  and equality / zero-ness statements transfer both ways);
* the decomposition returns, per observation, the sum of squared
  reconstruction errors (`residualSq`), where the code stores
  `sqrt residualSq / n_pixels`; `residualSq i = 0` iff the code's
  residual entry is `0`.

In-place numpy updates (`interferograms -= np.mean(interferograms)` and
`tcs_c[:, n] += ...`) are modelled by explicit state passing: each
function also returns the final value of every array the Python code
mutates, and the caller's data flow is threaded through those returned
values in program order.

Natural-number subtraction is used for the window index `t - t_recalculate`
appearing in `tcs_monitoring`; Python would instead wrap a negative index,
which only occurs in the degenerate case `t_recalculate` larger than the
baseline length, so theorems about the monitoring windows carry the
hypothesis `t_recalculate ≤ baseline length` under which the two agree.
-/

/-- Rational model of `np.mean` of a one-dimensional array: sum divided by
length.  (On an empty array numpy produces NaN; the `ℚ` model yields the
junk value `x / 0 = 0`, and no theorem below is stated on that case.) -/
def meanL (l : List ℚ) : ℚ := l.sum / (l.length : ℚ)

/-- Slope of the degree-one least-squares fit returned by
`np.polyfit(xs, ys, 1)` (closed-form normal-equations solution). -/
def olsGradient (xs ys : List ℚ) : ℚ :=
  ((xs.length : ℚ) * (List.zipWith (fun x y => x * y) xs ys).sum - xs.sum * ys.sum) /
    ((xs.length : ℚ) * (xs.map (fun x => x * x)).sum - xs.sum * xs.sum)

/-- Intercept of the degree-one least-squares fit returned by
`np.polyfit(xs, ys, 1)`. -/
def olsIntercept (xs ys : List ℚ) : ℚ :=
  (ys.sum - olsGradient xs ys * xs.sum) / (xs.length : ℚ)

/-- The per-channel trend state dictionary built by `tcs_baseline` and
extended by `tcs_monitoring` (`tc_dict` in the source).  `lines` is the
square `lines` matrix as a total function, with `none` standing for the
NaN entries (and for out-of-range indices — no claim distinguishes an
in-matrix NaN from an absent entry).  As explained in the module
docstring, `sigmaSq` models `sigma**2` and `distancesRaw` models
`distances * sigma`. -/
@[ext] structure TrendState where
  cumulative_tc : List ℚ
  gradient : ℚ
  lines : ℕ → ℕ → Option ℚ
  sigmaSq : ℚ
  distancesRaw : List ℚ
  t_recalculate : ℕ

instance : Inhabited TrendState :=
  ⟨⟨[], 0, fun _ _ => none, 0, [], 0⟩⟩

/-- Value of the single global best-fit line of `tcs_baseline` at time
step `t` (`line_yvals` in the source: `np.polyval((gradient, y_intercept),
time_values)`). -/
def baselineLineVal (col tv : List ℚ) (t : ℕ) : ℚ :=
  olsGradient tv col * tv.getD t 0 + olsIntercept tv col

/-- Signed line-to-point distance of `tcs_baseline` at time step `t`
(`line_point_distances` in the source, before `np.abs`). -/
def baselineRawDist (col tv : List ℚ) (t : ℕ) : ℚ :=
  col.getD t 0 - baselineLineVal col tv t

/-- All signed baseline line-to-point distances, one per time step. -/
def baselineRawDists (col tv : List ℚ) : List ℚ :=
  (List.range col.length).map (baselineRawDist col tv)

/-- One iteration of the `for n_tc in range(n_tcs)` loop of
`tcs_baseline`: the trend state for a single cumulative time-course
column.  The banded `lines` matrix holds the global line's value at rows
`max 0 (t - (t_recalculate - 1)) ≤ t' ≤ t` of column `t` (the source
clamps a negative `start_time` to `0`; the condition
`t + 1 ≤ t' + t_recalculate` expresses `t - t_recalculate + 1 ≤ t'` over
the integers).  `sigmaSq` is the variance (`np.std` squared, with the
default zero delta-degrees-of-freedom) of the signed distances. -/
def tcsBaselineOne (col tv : List ℚ) (t_recalculate : ℕ) : TrendState :=
  { cumulative_tc := col
    gradient := olsGradient tv col
    lines := fun tp t =>
      if t < col.length ∧ t + 1 ≤ tp + t_recalculate ∧ tp ≤ t then
        some (baselineLineVal col tv tp)
      else none
    sigmaSq :=
      ((baselineRawDists col tv).map
        (fun x => (x - meanL (baselineRawDists col tv)) *
                  (x - meanL (baselineRawDists col tv)))).sum / (col.length : ℚ)
    distancesRaw := (baselineRawDists col tv).map (fun x => |x|)
    t_recalculate := t_recalculate }

/-- Model of `tcs_baseline`: one trend state per column of `tcs_c`. -/
def tcs_baseline (tcs_c : List (List ℚ)) (time_values : List ℚ)
    (t_recalculate : ℕ) : List TrendState :=
  tcs_c.map (fun col => tcsBaselineOne col time_values t_recalculate)

/-- Step 1 of the per-channel loop of `tcs_monitoring`: the updated
cumulative time course.  With `residual = False` the incoming column is
first shifted by the last baseline cumulative value (the in-place
`tcs_c[:, source_n] += source_tc["cumulative_tc"][-1]`) and then stacked
below the baseline series; with `residual = True` the supplied column
replaces the series outright. -/
def monCumulative (col : List ℚ) (st : TrendState) (residual : Bool) : List ℚ :=
  if residual then col
  else st.cumulative_tc ++ col.map (fun v => v + st.cumulative_tc.getLastD 0)

/-- Mean of the `t_recalculate` values at indices
`t - t_recalculate, …, t - 1` of a list (the source's
`np.mean(l[n_ifg - t_recalculate : n_ifg])`). -/
def windowMean (l : List ℚ) (t_recalculate t : ℕ) : ℚ :=
  meanL ((l.drop (t - t_recalculate)).take t_recalculate)

/-- Value at row `tp` of the rolling line drawn for monitoring step `t`:
the frozen baseline gradient applied at `time_values[tp]`, plus the
re-fitted intercept `mean(cum window) - gradient * mean(time window)`
(source line 226/227). -/
def monLineVal (cum tv : List ℚ) (g : ℚ) (t_recalculate t tp : ℕ) : ℚ :=
  g * tv.getD tp 0 + (windowMean cum t_recalculate t - g * windowMean tv t_recalculate t)

/-- The `np.pad` of the distances column by `n_monitor` trailing zeros. -/
def padDistances (old : List ℚ) (n_monitor : ℕ) : List ℚ :=
  old ++ List.replicate n_monitor 0

/-- One iteration of the `for source_n, source_tc in enumerate(...)` loop
of `tcs_monitoring`, for the channel's incoming column `col` and prior
state `st`, given the loop-invariant quantities `t_recalculate`,
`n_times_baseline` and `n_times_monitor` (which the source reads once
from channel 0).  The `lines` matrix gains, for each monitoring step
`n_base ≤ t < n_base + n_monitor`, the rolling-line values at rows
`t - t_recalculate, …, t`; the distances column is padded and row `t`
is overwritten with the new raw distance (the code divides it by the
frozen baseline sigma).  `gradient`, `sigmaSq` and `t_recalculate` are
carried over unchanged. -/
def tcsMonitoringOne (col : List ℚ) (st : TrendState) (tv : List ℚ)
    (residual : Bool) (t_rec n_base n_monitor : ℕ) : TrendState :=
  { st with
    cumulative_tc := monCumulative col st residual
    lines := fun tp t =>
      if n_base ≤ t ∧ t < n_base + n_monitor ∧ t - t_rec ≤ tp ∧ tp ≤ t then
        some (monLineVal (monCumulative col st residual) tv st.gradient t_rec t tp)
      else st.lines tp t
    distancesRaw :=
      (List.range (padDistances st.distancesRaw n_monitor).length).map (fun t =>
        if n_base ≤ t ∧ t < n_base + n_monitor then
          |(monCumulative col st residual).getD t 0 -
            monLineVal (monCumulative col st residual) tv st.gradient t_rec t t|
        else (padDistances st.distancesRaw n_monitor).getD t 0) }

/-- Index-passing `map`, used to model Python's `enumerate` loops. -/
def mapIdxFrom {α β : Type} (f : ℕ → α → β) : ℕ → List α → List β
  | _, [] => []
  | i, a :: l => f i a :: mapIdxFrom f (i + 1) l

/-- Full model of `tcs_monitoring`, returning both the new state list and
the final value of the caller's `tcs_c` array (which the source mutates
in place, column by column, in `residual = False` mode).  The quantities
`t_recalculate` and `n_times_baseline` are read from channel 0, exactly
as in the source; `n_times_monitor` is `tcs_c`'s row count in per-source
mode and the row count minus the baseline length in residual mode. -/
def tcsMonitoringFull (tcs_c : List (List ℚ)) (sources_tcs : List TrendState)
    (time_values : List ℚ) (residual : Bool) :
    List TrendState × List (List ℚ) :=
  let t_rec := (sources_tcs.headD default).t_recalculate
  let n_base := (sources_tcs.headD default).cumulative_tc.length
  let n_times_tc := (tcs_c.headD []).length
  let n_monitor := if residual then n_times_tc - n_base else n_times_tc
  (mapIdxFrom (fun n st =>
      tcsMonitoringOne (tcs_c.getD n []) st time_values residual t_rec n_base n_monitor)
    0 sources_tcs,
   mapIdxFrom (fun n colv =>
      if n < sources_tcs.length ∧ residual = false then
        colv.map (fun v => v + (sources_tcs.getD n default).cumulative_tc.getLastD 0)
      else colv)
    0 tcs_c)

/-- The state list returned by `tcs_monitoring` (first component of the
full model). -/
def tcs_monitoring (tcs_c : List (List ℚ)) (sources_tcs : List TrendState)
    (time_values : List ℚ) (residual : Bool) : List TrendState :=
  (tcsMonitoringFull tcs_c sources_tcs time_values residual).1

/-- Global mean of all entries of a matrix (`np.mean(interferograms)`). -/
def meanAll {n p : ℕ} (X : Matrix (Fin n) (Fin p) ℚ) : ℚ :=
  (∑ i, ∑ j, X i j) / ((n : ℚ) * (p : ℚ))

/-- Rational model of `np.linalg.inv` for the invertible case:
`det⁻¹ • adjugate` (on a singular input numpy raises instead; the model's
junk value `0⁻¹ = 0` is never used in a theorem). -/
def matInv {k : ℕ} (A : Matrix (Fin k) (Fin k) ℚ) : Matrix (Fin k) (Fin k) ℚ :=
  (A.det)⁻¹ • A.adjugate

/-- Cumulative sum down the rows of a matrix (`np.cumsum(m, axis=0)`). -/
def cumsumRows {n k : ℕ} (M : Matrix (Fin n) (Fin k) ℚ) : Matrix (Fin n) (Fin k) ℚ :=
  Matrix.of fun i j => ∑ ip ∈ Finset.univ.filter (fun ip => ip ≤ i), M ip j

/-- Result record of `bss_components_inversion`.  `m` is the matrix of
source strengths (cumulatively summed when the flag is set);
`residualSq i` is the sum of squared entries of the reconstruction error
of observation `i` — the code stores `sqrt (residualSq i) / n_pixels` and,
when the flag is set, its cumulative sum, so the code's residual column is
zero at a step exactly when `residualSq` is zero at every step up to it.
`interferograms_after` is the caller's interferogram array after the call
(the source mean-centres it in place on line 777). -/
structure BssResult (k n p : ℕ) where
  m : Matrix (Fin n) (Fin k) ℚ
  residualSq : Fin n → ℚ
  interferograms_after : Matrix (Fin n) (Fin p) ℚ

/-- The interferogram array after the in-place global mean-centring
`interferograms -= np.mean(interferograms)` (source line 777). -/
def bssCentered {n p : ℕ} (interferograms : Matrix (Fin n) (Fin p) ℚ) :
    Matrix (Fin n) (Fin p) ℚ :=
  Matrix.of fun i j => interferograms i j - meanAll interferograms

/-- The strength coefficients `m = inv(g.T @ g) @ g.T @ d` of the source,
with `d = interferograms.T` and `g = sources.T` (lines 780–782), one
column per observation. -/
def bssStrengths {k n p : ℕ} (sources : Matrix (Fin k) (Fin p) ℚ)
    (interferograms : Matrix (Fin n) (Fin p) ℚ) : Matrix (Fin k) (Fin n) ℚ :=
  matInv (sources.transpose.transpose * sources.transpose) *
    sources.transpose.transpose * (bssCentered interferograms).transpose

/-- The reconstruction error `d_resid = d - d_hat` with
`d_hat = g @ m` (lines 783–784), one column per observation. -/
def bssResidualMat {k n p : ℕ} (sources : Matrix (Fin k) (Fin p) ℚ)
    (interferograms : Matrix (Fin n) (Fin p) ℚ) : Matrix (Fin p) (Fin n) ℚ :=
  (bssCentered interferograms).transpose -
    sources.transpose * bssStrengths sources interferograms

/-- Model of `bss_components_inversion`: global mean-centring of the
interferograms (in place), normal-equations least squares onto the
sources, and per-observation squared reconstruction-error size. -/
def bss_components_inversion {k n p : ℕ} (sources : Matrix (Fin k) (Fin p) ℚ)
    (interferograms : Matrix (Fin n) (Fin p) ℚ) (cumulative : Bool) :
    BssResult k n p :=
  { m := if cumulative then cumsumRows (bssStrengths sources interferograms).transpose
         else (bssStrengths sources interferograms).transpose
    residualSq := fun i => ∑ pix, (bssResidualMat sources interferograms pix i) *
      (bssResidualMat sources interferograms pix i)
    interferograms_after := bssCentered interferograms }

/-- Model of `np.vstack` of two row-vector stacks over the same pixels. -/
def vstack {n m p : ℕ} (A : Matrix (Fin n) (Fin p) ℚ)
    (B : Matrix (Fin m) (Fin p) ℚ) : Matrix (Fin n ⊕ Fin m) (Fin p) ℚ :=
  Matrix.of fun i j => Sum.elim (fun a => A a j) (fun b => B b j) i

/-- The two interferogram arrays that `LiCSAlert` hands to
`residual_for_pixels` in monitoring mode, in program order: `ifgs_all`
is built by `np.vstack` (which copies) on line 38, *before*
`bss_components_inversion(sources, ifgs_baseline)` on line 43 mean-centres
`ifgs_baseline` in place; line 45 then passes the mutated baseline array,
while line 55 passes the untouched copy `ifgs_all`.  (Line 51 likewise
centres `ifgs_monitoring` in place, but `ifgs_all` already holds copies
of the original values.)  The first component is the array used for the
baseline residual, the second the array used for the full-span residual. -/
def LiCSAlert_residual_inputs {k n m p : ℕ} (sources : Matrix (Fin k) (Fin p) ℚ)
    (ifgs_baseline : Matrix (Fin n) (Fin p) ℚ)
    (ifgs_monitoring : Matrix (Fin m) (Fin p) ℚ) :
    Matrix (Fin n) (Fin p) ℚ × Matrix (Fin n ⊕ Fin m) (Fin p) ℚ :=
  ((bss_components_inversion sources ifgs_baseline true).interferograms_after,
   vstack ifgs_baseline ifgs_monitoring)

/-! Supporting lemmas. -/

theorem isSome_ite (c : Prop) [Decidable c] (x : ℚ) :
    (if c then some x else none).isSome = true ↔ c := by
  by_cases h : c <;> simp [h]

theorem isSome_ite_or (c : Prop) [Decidable c] (x : ℚ) (e : Option ℚ) :
    (if c then some x else e).isSome = true ↔ c ∨ e.isSome = true := by
  by_cases h : c <;> simp [h]

theorem getD_map_of_lt {α β : Type} (f : α → β) (l : List α) (i : ℕ)
    (d : α) (dd : β) (h : i < l.length) :
    (l.map f).getD i dd = f (l.getD i d) := by
  rw [List.getD_eq_getElem?_getD, List.getD_eq_getElem?_getD, List.getElem?_map,
    List.getElem?_eq_getElem h]
  rfl

theorem headD_map {α β : Type} (f : α → β) (l : List α) (d : α) (dd : β)
    (h : l ≠ []) : (l.map f).headD dd = f (l.headD d) := by
  cases l with
  | nil => exact absurd rfl h
  | cons a l => rfl

theorem mapIdxFrom_length {α β : Type} (f : ℕ → α → β) (s : ℕ) (l : List α) :
    (mapIdxFrom f s l).length = l.length := by
  induction l generalizing s with
  | nil => rfl
  | cons a l ih => simp [mapIdxFrom, ih]

theorem getD_mapIdxFrom {α β : Type} (f : ℕ → α → β) (s : ℕ) (l : List α) (i : ℕ)
    (d : α) (dd : β) (h : i < l.length) :
    (mapIdxFrom f s l).getD i dd = f (s + i) (l.getD i d) := by
  induction l generalizing s i with
  | nil => simp at h
  | cons a l ih =>
    cases i with
    | zero => simp [mapIdxFrom]
    | succ j =>
      have hj : j < l.length := by simpa using h
      simp only [mapIdxFrom, List.getD_cons_succ]
      rw [ih (s + 1) j hj]
      congr 1
      omega

theorem getD_mapIdxFrom_zero {α β : Type} (f : ℕ → α → β) (l : List α) (i : ℕ)
    (d : α) (dd : β) (h : i < l.length) :
    (mapIdxFrom f 0 l).getD i dd = f i (l.getD i d) := by
  rw [getD_mapIdxFrom f 0 l i d dd h, Nat.zero_add]

theorem mapIdxFrom_eq_self {α : Type} (f : ℕ → α → α) (s : ℕ) (l : List α)
    (h : ∀ i a, f i a = a) : mapIdxFrom f s l = l := by
  induction l generalizing s with
  | nil => rfl
  | cons a l ih => simp [mapIdxFrom, h, ih]

theorem range_map_getD (l : List ℚ) (d : ℚ) :
    (List.range l.length).map (fun i => l.getD i d) = l := by
  apply List.ext_getElem
  · simp
  · intro i h1 h2
    simp [List.getD_eq_getElem?_getD, List.getElem?_eq_getElem h2]

theorem getD_replicate_nil (k i : ℕ) :
    (List.replicate k ([] : List ℚ)).getD i [] = [] := by
  induction k generalizing i with
  | zero => rfl
  | succ k ih =>
    cases i with
    | zero => rfl
    | succ j => simp only [List.replicate, List.getD_cons_succ]; exact ih j

theorem list_range_sum (f : ℕ → ℚ) (n : ℕ) :
    ((List.range n).map f).sum = ∑ t ∈ Finset.range n, f t := by
  induction n with
  | zero => simp
  | succ n ih =>
    rw [List.range_succ, List.map_append, List.sum_append, Finset.sum_range_succ, ih]
    simp

theorem sum_getD_range (l : List ℚ) :
    (∑ t ∈ Finset.range l.length, l.getD t 0) = l.sum := by
  rw [← list_range_sum, range_map_getD]

/-- Reduction of the state list returned by `tcs_monitoring` at a valid
channel index to the single-channel loop body. -/
theorem tcs_monitoring_getD (tcs_c : List (List ℚ)) (sts : List TrendState)
    (tv : List ℚ) (residual : Bool) (i : ℕ) (h : i < sts.length) :
    (tcs_monitoring tcs_c sts tv residual).getD i default =
      tcsMonitoringOne (tcs_c.getD i []) (sts.getD i default) tv residual
        ((sts.headD default).t_recalculate)
        ((sts.headD default).cumulative_tc.length)
        (if residual then
          (tcs_c.headD []).length - (sts.headD default).cumulative_tc.length
         else (tcs_c.headD []).length) := by
  simp only [tcs_monitoring, tcsMonitoringFull]
  exact getD_mapIdxFrom_zero _ _ _ default default h

/-- Claim C1: for every baseline state list and every new cumulative
time-course matrix, `tcs_monitoring` in per-source mode produces, for each
channel, a cumulative series equal to the baseline series followed by the
new values each increased by the last baseline cumulative value of that
channel; in residual mode the cumulative series is the supplied full
series unchanged.  (The nonemptiness hypothesis reflects the source
reading `cumulative_tc[-1]`, which requires a nonempty baseline series.) -/
theorem tcs_monitoring_cumulative_extension
    (tcs_c : List (List ℚ)) (sts : List TrendState) (tv : List ℚ) (i : ℕ)
    (hi : i < sts.length)
    (_hne : (sts.getD i default).cumulative_tc ≠ []) :
    ((tcs_monitoring tcs_c sts tv false).getD i default).cumulative_tc
        = (sts.getD i default).cumulative_tc ++
          (tcs_c.getD i []).map
            (fun v => v + (sts.getD i default).cumulative_tc.getLastD 0) ∧
    ((tcs_monitoring tcs_c sts tv true).getD i default).cumulative_tc
        = tcs_c.getD i [] := by
  constructor
  · rw [tcs_monitoring_getD tcs_c sts tv false i hi]
    simp [tcsMonitoringOne, monCumulative]
  · rw [tcs_monitoring_getD tcs_c sts tv true i hi]
    simp [tcsMonitoringOne, monCumulative]

theorem tcs_monitoring_cumulative_extension_witness :
    ((0 < (tcs_baseline [[(1 : ℚ), 2]] [1, 2] 2).length) ∧
      ((tcs_baseline [[(1 : ℚ), 2]] [1, 2] 2).getD 0 default).cumulative_tc ≠ []) ∧
    (((tcs_monitoring [[(3 : ℚ)]] (tcs_baseline [[(1 : ℚ), 2]] [1, 2] 2)
          [1, 2, 3] false).getD 0 default).cumulative_tc
        = ((tcs_baseline [[(1 : ℚ), 2]] [1, 2] 2).getD 0 default).cumulative_tc ++
          ([[(3 : ℚ)]].getD 0 []).map
            (fun v => v + ((tcs_baseline [[(1 : ℚ), 2]] [1, 2] 2).getD 0
                default).cumulative_tc.getLastD 0) ∧
      ((tcs_monitoring [[(3 : ℚ)]] (tcs_baseline [[(1 : ℚ), 2]] [1, 2] 2)
          [1, 2, 3] true).getD 0 default).cumulative_tc
        = [[(3 : ℚ)]].getD 0 []) :=
  ⟨⟨by decide, by decide⟩,
    tcs_monitoring_cumulative_extension [[(3 : ℚ)]]
      (tcs_baseline [[(1 : ℚ), 2]] [1, 2] 2) [1, 2, 3] 0 (by decide) (by decide)⟩

/-- Claim C3: the state list returned by `tcs_monitoring` carries the
`gradient`, sigma and `t_recalculate` fields of each channel unchanged
from the input (in both modes).  Non-mutation of the input state list
itself — the source works on `copy.deepcopy(sources_tcs)` — is rendered
by the model's purity: `tcsMonitoringFull` returns the updated state and
`tcs_c` array only, and its `sources_tcs` argument is shared, not
written. -/
theorem tcs_monitoring_preserves_baseline_fields
    (tcs_c : List (List ℚ)) (sts : List TrendState) (tv : List ℚ)
    (residual : Bool) (i : ℕ) (hi : i < sts.length) :
    ((tcs_monitoring tcs_c sts tv residual).getD i default).gradient
        = (sts.getD i default).gradient ∧
    ((tcs_monitoring tcs_c sts tv residual).getD i default).sigmaSq
        = (sts.getD i default).sigmaSq ∧
    ((tcs_monitoring tcs_c sts tv residual).getD i default).t_recalculate
        = (sts.getD i default).t_recalculate := by
  rw [tcs_monitoring_getD tcs_c sts tv residual i hi]
  exact ⟨rfl, rfl, rfl⟩

theorem tcs_monitoring_preserves_baseline_fields_witness :
    (0 < (tcs_baseline [[(1 : ℚ), 2]] [1, 2] 2).length) ∧
    (((tcs_monitoring [[(3 : ℚ)]] (tcs_baseline [[(1 : ℚ), 2]] [1, 2] 2)
          [1, 2, 3] false).getD 0 default).gradient
        = ((tcs_baseline [[(1 : ℚ), 2]] [1, 2] 2).getD 0 default).gradient ∧
      ((tcs_monitoring [[(3 : ℚ)]] (tcs_baseline [[(1 : ℚ), 2]] [1, 2] 2)
          [1, 2, 3] false).getD 0 default).sigmaSq
        = ((tcs_baseline [[(1 : ℚ), 2]] [1, 2] 2).getD 0 default).sigmaSq ∧
      ((tcs_monitoring [[(3 : ℚ)]] (tcs_baseline [[(1 : ℚ), 2]] [1, 2] 2)
          [1, 2, 3] false).getD 0 default).t_recalculate
        = ((tcs_baseline [[(1 : ℚ), 2]] [1, 2] 2).getD 0 default).t_recalculate) :=
  ⟨by decide,
    tcs_monitoring_preserves_baseline_fields [[(3 : ℚ)]]
      (tcs_baseline [[(1 : ℚ), 2]] [1, 2] 2) [1, 2, 3] false 0 (by decide)⟩

/-- Claim C9: in per-source mode `tcs_monitoring` mutates its `tcs_c`
argument in place — the final value of the caller's array (second
component of the full model) has, in each channel's column, the last
baseline cumulative value of that channel added to every entry. -/
theorem tcs_monitoring_mutates_tcs_c
    (tcs_c : List (List ℚ)) (sts : List TrendState) (tv : List ℚ) (i : ℕ)
    (hi : i < sts.length) (hic : i < tcs_c.length)
    (_hne : (sts.getD i default).cumulative_tc ≠ []) :
    ((tcsMonitoringFull tcs_c sts tv false).2).getD i []
      = (tcs_c.getD i []).map
          (fun v => v + (sts.getD i default).cumulative_tc.getLastD 0) := by
  simp only [tcsMonitoringFull]
  rw [getD_mapIdxFrom_zero _ _ _ [] [] hic]
  rw [if_pos ⟨hi, trivial⟩]

theorem tcs_monitoring_mutates_tcs_c_witness :
    ((0 < (tcs_baseline [[(1 : ℚ), 2]] [1, 2] 2).length) ∧
      (0 < ([[(3 : ℚ), 4]] : List (List ℚ)).length) ∧
      ((tcs_baseline [[(1 : ℚ), 2]] [1, 2] 2).getD 0 default).cumulative_tc ≠ []) ∧
    ((tcsMonitoringFull [[(3 : ℚ), 4]] (tcs_baseline [[(1 : ℚ), 2]] [1, 2] 2)
        [1, 2, 3, 4] false).2).getD 0 []
      = ([[(3 : ℚ), 4]].getD 0 []).map
          (fun v => v + ((tcs_baseline [[(1 : ℚ), 2]] [1, 2] 2).getD 0
              default).cumulative_tc.getLastD 0) :=
  ⟨⟨by decide, by decide, by decide⟩,
    tcs_monitoring_mutates_tcs_c [[(3 : ℚ), 4]]
      (tcs_baseline [[(1 : ℚ), 2]] [1, 2] 2) [1, 2, 3, 4] 0
      (by decide) (by decide) (by decide)⟩

/-- The per-channel extension step is the identity when the extension is
empty: appending no values, padding by zero, and an empty monitoring
loop leave every field as it was. -/
theorem tcsMonitoringOne_nil (st : TrendState) (tv : List ℚ) (trec n_base : ℕ) :
    tcsMonitoringOne [] st tv false trec n_base 0 = st := by
  have hpad : padDistances st.distancesRaw 0 = st.distancesRaw := by
    simp [padDistances]
  refine TrendState.ext ?_ ?_ ?_ ?_ ?_ ?_
  · simp [tcsMonitoringOne, monCumulative]
  · rfl
  · funext tp t
    simp only [tcsMonitoringOne]
    rw [if_neg (by omega)]
  · rfl
  · simp only [tcsMonitoringOne]
    rw [hpad]
    apply List.ext_getElem
    · simp
    · intro i h1 h2
      simp only [List.getElem_map, List.getElem_range]
      rw [if_neg (by omega)]
      simp [List.getD_eq_getElem?_getD, List.getElem?_eq_getElem h2]
  · rfl

/-- Claim C4: running `tcs_baseline` and then `tcs_monitoring` with zero
additional monitoring steps (an empty per-source extension: one empty
column per channel) returns the un-extended baseline state list, field by
field.  (The nonemptiness hypothesis reflects the source reading
`cumulative_tc[-1]` of each channel.) -/
theorem tcs_monitoring_empty_extension_id
    (cols : List (List ℚ)) (tv : List ℚ) (trec : ℕ)
    (_hne : ∀ c ∈ cols, c ≠ []) :
    tcs_monitoring (List.replicate cols.length []) (tcs_baseline cols tv trec) tv false
      = tcs_baseline cols tv trec := by
  have hh : ((List.replicate cols.length ([] : List ℚ)).headD []) = [] := by
    cases cols <;> simp [List.replicate_succ]
  simp only [tcs_monitoring, tcsMonitoringFull, hh, List.length_nil]
  apply mapIdxFrom_eq_self
  intro i st
  rw [getD_replicate_nil]
  exact tcsMonitoringOne_nil st tv _ _

theorem tcs_monitoring_empty_extension_id_witness :
    (∀ c ∈ [[(1 : ℚ), 2, 3]], c ≠ []) ∧
    tcs_monitoring (List.replicate ([[(1 : ℚ), 2, 3]]).length [])
        (tcs_baseline [[(1 : ℚ), 2, 3]] [1, 2, 3] 2) [1, 2, 3] false
      = tcs_baseline [[(1 : ℚ), 2, 3]] [1, 2, 3] 2 :=
  ⟨by decide,
    tcs_monitoring_empty_extension_id [[(1 : ℚ), 2, 3]] [1, 2, 3] 2 (by decide)⟩

/-- Characterization of the non-NaN entries of the `lines` matrix built by
the baseline loop: column `t` holds values exactly at rows
`max 0 (t - t_recalculate + 1) ≤ t' ≤ t` (for `t` inside the matrix). -/
theorem tcsBaselineOne_lines_isSome (col tv : List ℚ) (trec tp t : ℕ) :
    ((tcsBaselineOne col tv trec).lines tp t).isSome = true ↔
      (t < col.length ∧ t + 1 ≤ tp + trec ∧ tp ≤ t) := by
  by_cases h : (t < col.length ∧ t + 1 ≤ tp + trec ∧ tp ≤ t) <;>
    simp [tcsBaselineOne, h]

/-- Claim C2 is false as stated for states produced by `tcs_monitoring`:
with `t_recalculate = 2`, a two-step baseline and one monitoring step, the
monitoring column `t = 2` of the `lines` matrix is written at row
`t' = 0 = t - t_recalculate` as well, which lies strictly below the
claimed lower bound `max 0 (t - t_recalculate + 1) = 1` (the source
assigns the slice `[n_ifg - t_recalculate : n_ifg + 1]`, a window of
`t_recalculate + 1` rows). -/
theorem lines_window_claim_counterexample :
    (((tcs_monitoring [[(5 : ℚ)]] (tcs_baseline [[(0 : ℚ), 1]] [1, 2] 2)
        [1, 2, 3] false).getD 0 default).lines 0 2).isSome = true ∧
    (0 : ℕ) < 2 - 2 + 1 := by
  constructor
  · decide
  · decide

/-- Claim C2, amended: for states produced by `tcs_baseline` the window of
defined `lines` entries in column `t` is `[max 0 (t - t_recalculate + 1), t]`
exactly as claimed; but for the states produced by `tcs_monitoring` (in
per-source mode on a baseline state list, with `t_recalculate` at most the
baseline length), the monitoring columns `t ≥ n_baseline` are instead
defined exactly on `[t - t_recalculate, t]` — a window of
`t_recalculate + 1` consecutive steps — while baseline columns keep the
claimed window. -/
theorem lines_window_characterization
    (cols tcs_c : List (List ℚ)) (tv tv2 : List ℚ) (trec i tp t : ℕ)
    (hi : i < cols.length)
    (hlen : ∀ c ∈ cols, c.length = (cols.headD []).length)
    (_htrec : trec ≤ (cols.headD []).length) :
    ((((tcs_baseline cols tv trec).getD i default).lines tp t).isSome = true ↔
      (t < (cols.headD []).length ∧ t + 1 ≤ tp + trec ∧ tp ≤ t)) ∧
    ((((tcs_monitoring tcs_c (tcs_baseline cols tv trec) tv2 false).getD i
        default).lines tp t).isSome = true ↔
      (((cols.headD []).length ≤ t ∧
        t < (cols.headD []).length + (tcs_c.headD []).length ∧
        t - trec ≤ tp ∧ tp ≤ t) ∨
       (t < (cols.headD []).length ∧ t + 1 ≤ tp + trec ∧ tp ≤ t))) := by
  have hcols_ne : cols ≠ [] := by
    intro h
    rw [h] at hi
    simp at hi
  have hgetD : (tcs_baseline cols tv trec).getD i default
      = tcsBaselineOne (cols.getD i []) tv trec := by
    simp only [tcs_baseline]
    exact getD_map_of_lt _ _ _ [] default hi
  have hmem : cols.getD i [] ∈ cols := by
    rw [List.getD_eq_getElem?_getD, List.getElem?_eq_getElem hi]
    exact List.getElem_mem hi
  have hcollen : (cols.getD i []).length = (cols.headD []).length := hlen _ hmem
  have hbase : ∀ tp t : ℕ,
      ((((tcs_baseline cols tv trec).getD i default).lines tp t).isSome = true ↔
        (t < (cols.headD []).length ∧ t + 1 ≤ tp + trec ∧ tp ≤ t)) := by
    intro tp t
    rw [hgetD, tcsBaselineOne_lines_isSome, hcollen]
  refine ⟨hbase tp t, ?_⟩
  have hlenmap : i < (tcs_baseline cols tv trec).length := by
    simpa [tcs_baseline] using hi
  rw [tcs_monitoring_getD _ _ _ _ i hlenmap]
  have hhead : (tcs_baseline cols tv trec).headD default
      = tcsBaselineOne (cols.headD []) tv trec := by
    simp only [tcs_baseline]
    exact headD_map _ _ [] default hcols_ne
  rw [hhead]
  simp only [tcsMonitoringOne, Bool.false_eq_true, if_false]
  rw [isSome_ite_or]
  rw [hbase tp t]
  rfl

theorem lines_window_characterization_witness :
    ((0 < ([[(0 : ℚ), 1]] : List (List ℚ)).length) ∧
      (∀ c ∈ ([[(0 : ℚ), 1]] : List (List ℚ)),
        c.length = (([[(0 : ℚ), 1]] : List (List ℚ)).headD []).length) ∧
      2 ≤ (([[(0 : ℚ), 1]] : List (List ℚ)).headD []).length) ∧
    (((((tcs_baseline [[(0 : ℚ), 1]] [1, 2] 2).getD 0 default).lines 1 2).isSome = true ↔
      (2 < (([[(0 : ℚ), 1]] : List (List ℚ)).headD []).length ∧
        2 + 1 ≤ 1 + 2 ∧ 1 ≤ 2)) ∧
     ((((tcs_monitoring [[(5 : ℚ)]] (tcs_baseline [[(0 : ℚ), 1]] [1, 2] 2)
          [1, 2, 3] false).getD 0 default).lines 1 2).isSome = true ↔
      (((([[(0 : ℚ), 1]] : List (List ℚ)).headD []).length ≤ 2 ∧
        2 < (([[(0 : ℚ), 1]] : List (List ℚ)).headD []).length +
          (([[(5 : ℚ)]] : List (List ℚ)).headD []).length ∧
        2 - 2 ≤ 1 ∧ 1 ≤ 2) ∨
       (2 < (([[(0 : ℚ), 1]] : List (List ℚ)).headD []).length ∧
        2 + 1 ≤ 1 + 2 ∧ 1 ≤ 2)))) :=
  ⟨⟨by decide, by decide, by decide⟩,
    lines_window_characterization [[(0 : ℚ), 1]] [[(5 : ℚ)]] [1, 2] [1, 2, 3]
      2 0 1 2 (by decide) (by decide) (by decide)⟩

/-- Claim C10: the rolling line that scores monitoring step `t` is fit on
the cumulative values at the `t_recalculate` indices `t - t_recalculate`
through `t - 1` only — the current step is excluded from the window
means — so two extensions whose updated cumulative series agree on that
window (and may differ arbitrarily at step `t` itself and beyond) produce
identical `lines` entries in column `t`. -/
theorem monitoring_line_excludes_current_step
    (col1 col2 : List ℚ) (st : TrendState) (tv : List ℚ) (residual : Bool)
    (trec n_base n_monitor t tp : ℕ)
    (_hmon : n_base ≤ t) (_ht : trec ≤ t)
    (hwin : ((monCumulative col1 st residual).drop (t - trec)).take trec
          = ((monCumulative col2 st residual).drop (t - trec)).take trec) :
    (tcsMonitoringOne col1 st tv residual trec n_base n_monitor).lines tp t
      = (tcsMonitoringOne col2 st tv residual trec n_base n_monitor).lines tp t := by
  have hint : monLineVal (monCumulative col1 st residual) tv st.gradient trec t tp
      = monLineVal (monCumulative col2 st residual) tv st.gradient trec t tp := by
    simp [monLineVal, windowMean, hwin]
  by_cases h : (n_base ≤ t ∧ t < n_base + n_monitor ∧ t - trec ≤ tp ∧ tp ≤ t) <;>
    simp [tcsMonitoringOne, h, hint]

theorem monitoring_line_excludes_current_step_witness :
    ((2 ≤ 2) ∧ (2 ≤ 2) ∧
      ((monCumulative [(5 : ℚ)] (tcsBaselineOne [(0 : ℚ), 1] [1, 2] 2) false).drop (2 - 2)).take 2
        = ((monCumulative [(99 : ℚ)] (tcsBaselineOne [(0 : ℚ), 1] [1, 2] 2) false).drop (2 - 2)).take 2) ∧
    (tcsMonitoringOne [(5 : ℚ)] (tcsBaselineOne [(0 : ℚ), 1] [1, 2] 2)
        [1, 2, 3] false 2 2 1).lines 0 2
      = (tcsMonitoringOne [(99 : ℚ)] (tcsBaselineOne [(0 : ℚ), 1] [1, 2] 2)
        [1, 2, 3] false 2 2 1).lines 0 2 :=
  ⟨⟨by decide, by decide, by decide⟩,
    monitoring_line_excludes_current_step [(5 : ℚ)] [(99 : ℚ)]
      (tcsBaselineOne [(0 : ℚ), 1] [1, 2] 2) [1, 2, 3] false 2 2 1 2 0
      (by decide) (by decide) (by decide)⟩

/-- The signed baseline line-to-point distances sum to zero: the fitted
intercept is chosen so that the ordinary-least-squares residuals have
zero mean. -/
theorem baselineRawDists_sum_eq_zero (col tv : List ℚ)
    (hlen : tv.length = col.length) (hn : col.length ≠ 0) :
    (baselineRawDists col tv).sum = 0 := by
  have hnq : ((col.length : ℚ)) ≠ 0 := by exact_mod_cast hn
  have hsumtv : (∑ t ∈ Finset.range col.length, tv.getD t 0) = tv.sum := by
    rw [← hlen]
    exact sum_getD_range tv
  unfold baselineRawDists baselineRawDist baselineLineVal
  rw [list_range_sum]
  have expand : ∑ t ∈ Finset.range col.length,
      (col.getD t 0 - (olsGradient tv col * tv.getD t 0 + olsIntercept tv col))
      = (∑ t ∈ Finset.range col.length, col.getD t 0)
        - olsGradient tv col * (∑ t ∈ Finset.range col.length, tv.getD t 0)
        - (col.length : ℚ) * olsIntercept tv col := by
    rw [Finset.sum_sub_distrib, Finset.sum_add_distrib, ← Finset.mul_sum,
      Finset.sum_const, Finset.card_range, nsmul_eq_mul]
    ring
  rw [expand, sum_getD_range, hsumtv]
  unfold olsIntercept
  rw [hlen]
  field_simp

/-- Core of claim C5, for a single channel: since the residual mean is
zero, the variance `sigmaSq` coincides with the mean of the squared raw
distances, so their ratio is `1` whenever it is defined. -/
theorem tcsBaselineOne_msd (col tv : List ℚ) (trec : ℕ)
    (hlen : tv.length = col.length) (h2 : 2 ≤ col.length)
    (hσ : (tcsBaselineOne col tv trec).sigmaSq ≠ 0) :
    (((tcsBaselineOne col tv trec).distancesRaw.map (fun q => q * q)).sum /
        (((tcsBaselineOne col tv trec).distancesRaw.length : ℚ))) /
      (tcsBaselineOne col tv trec).sigmaSq = 1 := by
  have hn : col.length ≠ 0 := by omega
  have hsum0 : (baselineRawDists col tv).sum = 0 :=
    baselineRawDists_sum_eq_zero col tv hlen hn
  have hmean : meanL (baselineRawDists col tv) = 0 := by
    rw [meanL, hsum0, zero_div]
  have hsq : (tcsBaselineOne col tv trec).sigmaSq
      = ((baselineRawDists col tv).map (fun x => x * x)).sum / (col.length : ℚ) := by
    simp only [tcsBaselineOne, hmean, sub_zero]
  have hdist : (tcsBaselineOne col tv trec).distancesRaw.map (fun q => q * q)
      = (baselineRawDists col tv).map (fun x => x * x) := by
    simp only [tcsBaselineOne]
    rw [List.map_map]
    apply List.map_congr_left
    intro a _
    simp [Function.comp, abs_mul_abs_self]
  have hlen2 : (tcsBaselineOne col tv trec).distancesRaw.length = col.length := by
    simp [tcsBaselineOne, baselineRawDists]
  rw [hsq] at hσ
  rw [hdist, hlen2, hsq]
  exact div_self hσ

/-- Claim C5: for every baseline state produced by `tcs_baseline` (with at
least two time steps, matching time values, and nonzero sigma), the mean
of the squared pre-normalization line-to-point distances divided by sigma
squared equals `1`, because sigma is the standard deviation of those
distances and the least-squares residuals have zero mean. -/
theorem baseline_mean_sq_distance_over_sigmaSq
    (cols : List (List ℚ)) (tv : List ℚ) (trec i : ℕ)
    (hi : i < cols.length)
    (hlen : tv.length = (cols.getD i []).length)
    (h2 : 2 ≤ (cols.getD i []).length)
    (hσ : ((tcs_baseline cols tv trec).getD i default).sigmaSq ≠ 0) :
    ((((tcs_baseline cols tv trec).getD i default).distancesRaw.map
          (fun q => q * q)).sum /
        ((((tcs_baseline cols tv trec).getD i default).distancesRaw.length : ℚ))) /
      ((tcs_baseline cols tv trec).getD i default).sigmaSq = 1 := by
  have hgetD : (tcs_baseline cols tv trec).getD i default
      = tcsBaselineOne (cols.getD i []) tv trec := by
    simp only [tcs_baseline]
    exact getD_map_of_lt _ _ _ [] default hi
  rw [hgetD] at hσ ⊢
  exact tcsBaselineOne_msd _ _ _ hlen h2 hσ

theorem baseline_mean_sq_distance_over_sigmaSq_witness :
    ((0 < ([[(0 : ℚ), 0, 1]] : List (List ℚ)).length) ∧
      ([(1 : ℚ), 2, 3] : List ℚ).length = (([[(0 : ℚ), 0, 1]] : List (List ℚ)).getD 0 []).length ∧
      2 ≤ (([[(0 : ℚ), 0, 1]] : List (List ℚ)).getD 0 []).length ∧
      ((tcs_baseline [[(0 : ℚ), 0, 1]] [1, 2, 3] 1).getD 0 default).sigmaSq ≠ 0) ∧
    ((((tcs_baseline [[(0 : ℚ), 0, 1]] [1, 2, 3] 1).getD 0 default).distancesRaw.map
          (fun q => q * q)).sum /
        ((((tcs_baseline [[(0 : ℚ), 0, 1]] [1, 2, 3] 1).getD 0
            default).distancesRaw.length : ℚ))) /
      ((tcs_baseline [[(0 : ℚ), 0, 1]] [1, 2, 3] 1).getD 0 default).sigmaSq = 1 :=
  ⟨⟨by decide, by decide, by decide, by
      norm_num [tcs_baseline, tcsBaselineOne, baselineRawDists, baselineRawDist,
        baselineLineVal, olsGradient, olsIntercept, meanL,
        show List.range 3 = [0, 1, 2] from rfl]⟩,
    baseline_mean_sq_distance_over_sigmaSq [[(0 : ℚ), 0, 1]] [1, 2, 3] 1 0
      (by decide) (by decide) (by decide) (by
      norm_num [tcs_baseline, tcsBaselineOne, baselineRawDists, baselineRawDist,
        baselineLineVal, olsGradient, olsIntercept, meanL,
        show List.range 3 = [0, 1, 2] from rfl])⟩

/-- Claim C7 names a guard the source does not have: on a baseline whose
points lie exactly on the fitted line the standard deviation of the
line-to-point distances is zero, yet line 172 of the source computes
`distances = |line_point_distances| / sigma` unconditionally, with no
zero test and no rejection — in numpy this is `0 / 0`, i.e. the reported
distances are NaN, not defined values.  This theorem evaluates the model
at such an input: the divisor (whose square is `sigmaSq`) is zero while
every raw distance that the source would divide by it is `0`. -/
theorem tcs_baseline_sigma_zero_unguarded :
    ((tcs_baseline [[(1 : ℚ), 1, 1]] [1, 2, 3] 2).getD 0 default).sigmaSq = 0 ∧
    ((tcs_baseline [[(1 : ℚ), 1, 1]] [1, 2, 3] 2).getD 0 default).distancesRaw
      = [0, 0, 0] := by
  constructor <;>
    norm_num [tcs_baseline, tcsBaselineOne, baselineRawDists, baselineRawDist,
      baselineLineVal, olsGradient, olsIntercept, meanL,
      show List.range 3 = [0, 1, 2] from rfl]

/-- The rational model of `np.linalg.inv` is a left inverse whenever the
determinant is nonzero (the only case the source relies on). -/
theorem matInv_mul_self {k : ℕ} (A : Matrix (Fin k) (Fin k) ℚ) (h : A.det ≠ 0) :
    matInv A * A = 1 := by
  have hinv : matInv A = A⁻¹ := by
    unfold matInv
    rw [Matrix.inv_def, Ring.inverse_eq_inv]
  rw [hinv]
  exact Matrix.nonsing_inv_mul A (isUnit_iff_ne_zero.mpr h)

/-- Claim C6: for every interferogram matrix that is exactly a linear
combination of the (row-mean-centred, full-rank) sources with zero noise,
`bss_components_inversion` reports a residual of zero at every time step.
Since each source row sums to zero, the global mean subtracted on line 777
is itself zero, the normal-equations solution recovers the exact
strengths, and every reconstruction error vanishes — so the code's
residual entries `sqrt (residualSq i) / n_pixels` (and their cumulative
sums) are all zero. -/
theorem bss_inversion_exact_reconstruction_zero_residual
    {k n p : ℕ} (S : Matrix (Fin k) (Fin p) ℚ) (X : Matrix (Fin n) (Fin p) ℚ)
    (m0 : Matrix (Fin n) (Fin k) ℚ) (cumulative : Bool)
    (hX : X = m0 * S)
    (hcent : ∀ j, (∑ q, S j q) = 0)
    (hdet : (S * S.transpose).det ≠ 0) :
    ∀ i, (bss_components_inversion S X cumulative).residualSq i = 0 := by
  have hmean : meanAll X = 0 := by
    rw [hX]
    unfold meanAll
    have hrow : ∀ i : Fin n, (∑ j, (m0 * S) i j) = 0 := by
      intro i
      simp only [Matrix.mul_apply]
      rw [Finset.sum_comm]
      simp [← Finset.mul_sum, hcent]
    have hz : (∑ i, ∑ j, (m0 * S) i j) = 0 := by
      simp [hrow]
    rw [hz, zero_div]
  have hc : bssCentered X = m0 * S := by
    unfold bssCentered
    simp only [hmean, sub_zero]
    rw [← hX]
    rfl
  have hstr : bssStrengths S X = m0.transpose := by
    unfold bssStrengths
    rw [hc, Matrix.transpose_transpose, Matrix.transpose_mul]
    rw [Matrix.mul_assoc (matInv (S * S.transpose)) S (S.transpose * m0.transpose)]
    rw [← Matrix.mul_assoc S S.transpose m0.transpose]
    rw [← Matrix.mul_assoc (matInv (S * S.transpose)) (S * S.transpose) m0.transpose]
    rw [matInv_mul_self _ hdet, Matrix.one_mul]
  have hres : bssResidualMat S X = 0 := by
    unfold bssResidualMat
    rw [hc, hstr, Matrix.transpose_mul, sub_self]
  intro i
  simp [bss_components_inversion, hres]

theorem bss_inversion_exact_reconstruction_zero_residual_witness :
    ((!![(2 : ℚ), -2] = !![(2 : ℚ)] * !![(1 : ℚ), -1]) ∧
      (∀ j : Fin 1, (∑ q : Fin 2, !![(1 : ℚ), -1] j q) = 0) ∧
      (!![(1 : ℚ), -1] * (!![(1 : ℚ), -1]).transpose).det ≠ 0) ∧
    (bss_components_inversion !![(1 : ℚ), -1] !![(2 : ℚ), -2] true).residualSq 0 = 0 :=
  ⟨⟨by ext i j; fin_cases i; fin_cases j <;>
      simp [Matrix.mul_apply, Fin.sum_univ_one],
    by intro j; fin_cases j; norm_num [Fin.sum_univ_two],
    by simp [Matrix.det_fin_one, Matrix.mul_apply, Fin.sum_univ_two,
      Matrix.transpose_apply, Matrix.cons_val_zero, Matrix.cons_val_one,
      Matrix.head_cons, Matrix.vecHead, Matrix.vecTail]⟩,
    bss_inversion_exact_reconstruction_zero_residual !![(1 : ℚ), -1] !![(2 : ℚ), -2]
      !![(2 : ℚ)] true
      (by ext i j; fin_cases i; fin_cases j <;>
        simp [Matrix.mul_apply, Fin.sum_univ_one])
      (by intro j; fin_cases j; norm_num [Fin.sum_univ_two])
      (by simp [Matrix.det_fin_one, Matrix.mul_apply, Fin.sum_univ_two,
      Matrix.transpose_apply, Matrix.cons_val_zero, Matrix.cons_val_one,
      Matrix.head_cons, Matrix.vecHead, Matrix.vecTail]) 0⟩

/-- Claim C8: `bss_components_inversion` subtracts the global mean from
its interferograms argument in place, so the caller's array is
mean-centred after the call (first conjunct, via the returned final array
state); inside `LiCSAlert` the stacked array `ifgs_all` is built by
`np.vstack` — a copy — before that mutation, so the baseline residual is
computed against the centred baseline array while the full-span residual
is computed against the original, un-centred values (remaining
conjuncts). -/
theorem bss_centering_frame_effect_and_residual_args
    {k n m p : ℕ} (S : Matrix (Fin k) (Fin p) ℚ)
    (B : Matrix (Fin n) (Fin p) ℚ) (M : Matrix (Fin m) (Fin p) ℚ) :
    (∀ i j, (bss_components_inversion S B true).interferograms_after i j
      = B i j - meanAll B) ∧
    (LiCSAlert_residual_inputs S B M).1
      = (bss_components_inversion S B true).interferograms_after ∧
    (LiCSAlert_residual_inputs S B M).2 = vstack B M ∧
    (∀ i j, (LiCSAlert_residual_inputs S B M).2 (Sum.inl i) j = B i j) :=
  ⟨fun _ _ => rfl, rfl, rfl, fun _ _ => rfl⟩
